import Mathlib

/-!
Verification of the Attendance Aggregation Engine of `report_updated.py`.

The script's pure computation is embedded shallowly:

* A dataframe row becomes a `Row`.  `CheckInTime` (a Python `datetime.time`)
  is modelled as seconds since midnight (`Nat`); Python compares `time`
  values exactly as this ordinal does.  The `Month` column
  (`strftime "%Y-%m"` of `CheckInDate`, line 60) is modelled as a
  precomputed `month : String` field, since no claim exercises the date ->
  month derivation itself.
* Pandas `groupby` over a column becomes: deduplicated list of key values,
  each mapped to the sub-list of rows with that key.  (Pandas sorts group
  keys; the claims checked here are order-independent, so first-occurrence
  order via `List.dedup` is used.)
* Percentages, computed by the script in `float64`, are modelled as exact
  rationals; `.round(1)` / `round(x, 1)` become rounding half-to-even at
  one decimal place (`round1`), numpy's and Python 3's rounding mode on
  the exact value.
* The column-schema behaviour of the script (which `KeyError` a missing
  column raises, and where in the top-to-bottom execution it happens) is
  modelled by `runPipeline` over the set of column names, assuming a
  nonempty dataset so that every statement in the script executes.
-/

namespace Attendance

/-- One normalized dataframe row (after the renaming of lines 30-37 and the
parsing of lines 40-41): role, user, area, region, check-in time as seconds
since midnight, and the derived `Month` key of line 60. -/
structure Row where
  role : String
  user : String
  area : String
  region : String
  checkInTime : Nat
  month : String
deriving DecidableEq, Repr

/-- The dimension chosen by the radio control (line 65): Area or Region. -/
inductive Dim
  | area
  | region
deriving DecidableEq, Repr

/-- The column of the chosen dimension. -/
def Dim.col : Dim → String
  | .area => "Area"
  | .region => "Region"

/-- The grouping key of a row for the chosen dimension. -/
def keyOf : Dim → Row → String
  | .area, r => r.area
  | .region, r => r.region

/-- Line 57: `df["OnTime"] = df["CheckInTime"].apply(lambda t: t <= threshold_time)`.
A check-in is on time exactly when its time of day is at most the threshold. -/
def onTime (thr : Nat) (r : Row) : Bool :=
  r.checkInTime ≤ thr

/-- Round a rational to the nearest integer, ties to the even integer:
the rounding mode of numpy `.round` and Python 3 `round` on exact values. -/
def rhe (q : ℚ) : ℤ :=
  let n := ⌊q⌋
  if q - n < 1 / 2 then n
  else if 1 / 2 < q - n then n + 1
  else if n % 2 = 0 then n else n + 1

/-- Round to one decimal place (`.round(1)` / `round(x, 1)`). -/
def round1 (q : ℚ) : ℚ :=
  (rhe (q * 10) : ℚ) / 10

/-- The percentage formula used throughout the script:
`(num / den * 100)` rounded to one decimal place (lines 99-100, 125-126,
162-163, 173). -/
def pct (num den : Nat) : ℚ :=
  round1 ((num : ℚ) / (den : ℚ) * 100)

/-- One row of a grouped summary table (`group_summary` lines 121-126,
`month_summary` lines 95-100). -/
structure GroupRow where
  key : String
  total : Nat
  falseC : Nat
  falsePct : ℚ
deriving DecidableEq, Repr

/-- `groupby(key).agg(Total_Checkins=count, False_Checkins=(x == False).sum())`
plus the `False_%` column: one `GroupRow` per distinct key value. -/
def summaryBy (thr : Nat) (key : Row → String) (rows : List Row) : List GroupRow :=
  ((rows.map key).dedup).map fun k =>
    let g := rows.filter fun r => key r = k
    let f := (g.filter fun r => !onTime thr r).length
    { key := k, total := g.length, falseC := f, falsePct := pct f g.length }

/-- Lines 121-126: the per-group summary for the chosen dimension. -/
def groupSummary (thr : Nat) (d : Dim) (rows : List Row) : List GroupRow :=
  summaryBy thr (keyOf d) rows

/-- Lines 95-100: the monthly-trend summary, grouped by `Month`. -/
def monthSummary (thr : Nat) (rows : List Row) : List GroupRow :=
  summaryBy thr Row.month rows

/-- Line 157: `mdf = df[(df["Month"] == m) & (df["Role"] == "RA")]` —
the unfiltered RA population of month `m`. -/
def mdfOf (m : String) (rows : List Row) : List Row :=
  rows.filter fun r => r.month = m ∧ r.role = "RA"

/-- One row of the per-user RA table (lines 158-163). -/
structure URec where
  key : String
  user : String
  total : Nat
  falseC : Nat
  falsePct : ℚ
deriving DecidableEq, Repr

/-- Lines 158-163: `mdf.groupby([dim, "User"]).agg(...)` with the `False_%`
column, one `URec` per distinct (group key, user) pair of the month's RA rows. -/
def raUsers (thr : Nat) (d : Dim) (m : String) (rows : List Row) : List URec :=
  let mdf := mdfOf m rows
  ((mdf.map fun r => (keyOf d r, r.user)).dedup).map fun p =>
    let g := mdf.filter fun r => keyOf d r = p.1 ∧ r.user = p.2
    let f := (g.filter fun r => !onTime thr r).length
    { key := p.1, user := p.2, total := g.length, falseC := f,
      falsePct := pct f g.length }

/-- Line 164: `filtered_ra = ra_users[ra_users["False_%"] >= threshold]`. -/
def filterUsers (recs : List URec) (cutoff : ℚ) : List URec :=
  recs.filter fun r => cutoff ≤ r.falsePct

/-- Line 171: distinct RA users of group `k` in the *unfiltered* month
population `mdf` (`mdf.groupby(dim)["User"].nunique()`). -/
def totalRaPerArea (d : Dim) (mdf : List Row) (k : String) : Nat :=
  (((mdf.filter fun r => keyOf d r = k).map Row.user).dedup).length

/-- One row of the flagged-group table (lines 168-177). -/
structure FlagRow where
  key : String
  raCount : Nat
  totalRa : Nat
  percent : ℚ
deriving DecidableEq, Repr

/-- Lines 168-177: from the cutoff-filtered user table, per group the
distinct flagged-user count (`filtered_ra.groupby(dim)["User"].nunique()`,
line 169), the distinct RA users of that group in the unfiltered month
population (line 171), and `Percent = round(RA_Count / total * 100, 1)`
(line 173). -/
def areaLateCount (thr : Nat) (d : Dim) (m : String) (cutoff : ℚ)
    (rows : List Row) : List FlagRow :=
  let mdf := mdfOf m rows
  let filtered := filterUsers (raUsers thr d m rows) cutoff
  ((filtered.map URec.key).dedup).map fun k =>
    let n := (((filtered.filter fun u => u.key = k).map URec.user).dedup).length
    { key := k, raCount := n, totalRa := totalRaPerArea d mdf k,
      percent := pct n (totalRaPerArea d mdf k) }

/-- The overall summary metrics block (lines 75-81). -/
structure Summary where
  totalRa : Nat
  totalSup : Nat
  totalCheckins : Nat
  totalTrue : Nat
  totalFalse : Nat
  truePct : ℚ
  falsePct : ℚ
deriving Repr

/-- Lines 75-76: `df[df["Role"] == role]["User"].nunique()`. -/
def nuniqueUsers (role : String) (rows : List Row) : Nat :=
  (((rows.filter fun r => r.role = role).map Row.user).dedup).length

/-- Lines 75-81: total/true/false counts and the zero-guarded percentages
`(x / total * 100) if total_checkins else 0`. -/
def summarize (thr : Nat) (rows : List Row) : Summary :=
  let total := rows.length
  let t := (rows.filter fun r => onTime thr r).length
  let f := total - t
  { totalRa := nuniqueUsers "RA" rows
    totalSup := nuniqueUsers "SUP" rows
    totalCheckins := total
    totalTrue := t
    totalFalse := f
    truePct := if total = 0 then 0 else (t : ℚ) / (total : ℚ) * 100
    falsePct := if total = 0 then 0 else (f : ℚ) / (total : ℚ) * 100 }

/-!
Column-schema model of the script's execution (for the error-handling
claims).  A dataset is abstracted to the list of its column names; the
model records, for a nonempty dataset, which canonical column name the
first `KeyError` carries and how many `groupby` aggregations complete
before it is raised.
-/

/-- Lines 30-37: the `df.rename(columns={...})` mapping.  Pandas `rename`
renames the columns that are present and silently skips absent ones. -/
def renameCol (c : String) : String :=
  if c = "User Role" then "Role"
  else if c = "User Name" then "User"
  else if c = "Assigned Area" then "Area"
  else if c = "Assigned Region" then "Region"
  else if c = "Check-In Time" then "CheckInTime"
  else if c = "Check-In Date" then "CheckInDate"
  else c

/-- Lines 30-41, the per-file normalization: rename the columns, then
`df["CheckInDate"] = pd.to_datetime(df["CheckInDate"]).dt.date` (line 40)
and `df["CheckInTime"] = pd.to_datetime(df["CheckInTime"]).dt.time`
(line 41).  Each of the two assignments reads its column first and raises
`KeyError` naming it when absent; on success the canonical column list is
returned. -/
def normalizeSchema (cols : List String) : Except String (List String) :=
  if ¬ (cols.map renameCol).contains "CheckInDate" then .error "CheckInDate"
  else if ¬ (cols.map renameCol).contains "CheckInTime" then .error "CheckInTime"
  else .ok (cols.map renameCol)

/-- The statements the script executes after normalization, in source
order. -/
inductive Step
  | onTimeCol
  | monthCol
  | summary
  | monthTrend
  | groupAgg
  | raAgg
deriving DecidableEq, Repr

/-- The columns each step reads, in the order the source reads them. -/
def stepNeeds (d : Dim) : Step → List String
  | .onTimeCol => ["CheckInTime"]
  | .monthCol => ["CheckInDate"]
  | .summary => ["Role", "User", "OnTime"]
  | .monthTrend => ["Month", "OnTime"]
  | .groupAgg => ["Month", d.col, "OnTime"]
  | .raAgg => ["Month", "Role", d.col, "User", "OnTime"]

/-- The columns each step adds to the dataframe. -/
def stepAdds : Step → List String
  | .onTimeCol => ["OnTime"]
  | .monthCol => ["Month"]
  | _ => []

/-- Whether a step performs a `groupby` aggregation. -/
def isAgg : Step → Bool
  | .monthTrend => true
  | .groupAgg => true
  | .raAgg => true
  | _ => false

/-- The script's statements from line 57 on: compute `OnTime` (57), compute
`Month` (60), the overall summary metrics (75-81), the monthly-trend
aggregation (95-100), the per-month group aggregation (119-126), and the
per-month RA-user aggregation (157-163). -/
def pipelineSteps : List Step :=
  [.onTimeCol, .monthCol, .summary, .monthTrend, .groupAgg, .raAgg]

/-- Outcome of running the script on a (nonempty) dataset with a given
column schema: how many aggregations completed, and the canonical column
name of the first `KeyError`, if one is raised. -/
structure RunResult where
  aggsCompleted : Nat
  keyError : Option String
deriving DecidableEq, Repr

/-- Execute steps in order over the evolving column schema: the first step
whose needed column is missing halts with `KeyError` naming that column;
a completed aggregation step increments the counter. -/
def runSteps (d : Dim) : List Step → List String → Nat → RunResult
  | [], _, n => { aggsCompleted := n, keyError := none }
  | s :: rest, cols, n =>
    match (stepNeeds d s).find? (fun c => ¬ cols.contains c) with
    | some c => { aggsCompleted := n, keyError := some c }
    | none => runSteps d rest (cols ++ stepAdds s) (n + if isAgg s then 1 else 0)

/-- The whole script on a nonempty dataset whose columns are `cols`:
normalization (lines 30-41), then the statements of `pipelineSteps`. -/
def runPipeline (d : Dim) (cols : List String) : RunResult :=
  match normalizeSchema cols with
  | .error c => { aggsCompleted := 0, keyError := some c }
  | .ok cs => runSteps d pipelineSteps cs 0

/-- The full expected header of an uploaded file, original names. -/
def fullHeader : List String :=
  ["User Role", "User Name", "Assigned Area", "Assigned Region",
   "Check-In Time", "Check-In Date"]

/-- A header missing only the required `Assigned Area` column. -/
def headerNoArea : List String :=
  ["User Role", "User Name", "Assigned Region", "Check-In Time",
   "Check-In Date"]

/-- A header missing only the required `Check-In Time` column. -/
def headerNoTime : List String :=
  ["User Role", "User Name", "Assigned Area", "Assigned Region",
   "Check-In Date"]

/-- A header with every required column but no `Check-In Date` column. -/
def headerNoDate : List String :=
  ["User Role", "User Name", "Assigned Area", "Assigned Region",
   "Check-In Time"]

/-- A sample late check-in row used to instantiate theorems on concrete data. -/
def sampleRow : Row :=
  { role := "RA", user := "u", area := "N", region := "R",
    checkInTime := 10, month := "m" }

/-- A sample user-lateness record with 6 late of 10 check-ins
(`False_% = 60`). -/
def sampleURec : URec :=
  { key := "N", user := "u", total := 10, falseC := 6, falsePct := pct 6 10 }

/-- A user-lateness record with 2999 late of 5000 check-ins: an exact late
ratio of 59.98%, which rounds to 60.0 at one decimal place. -/
def borderURec : URec :=
  { key := "N", user := "w", total := 5000, falseC := 2999,
    falsePct := pct 2999 5000 }

/-!  Helper lemmas about the grouped aggregation. -/

/-- Summing the sizes of the key-partitions of a list over any finite set of
keys that covers it recovers the length of the list. -/
theorem sum_length_filter_key {α β : Type} [DecidableEq β] (key : α → β)
    (S : Finset β) (sub : List α) (h : ∀ r ∈ sub, key r ∈ S) :
    (∑ k ∈ S, (sub.filter fun r => key r = k).length) = sub.length := by
  induction sub with
  | nil => simp
  | cons a l ih =>
    have ha : key a ∈ S := h a (List.mem_cons_self a l)
    have hl : ∀ r ∈ l, key r ∈ S := fun r hr => h r (List.mem_cons_of_mem a hr)
    have hsplit : ∀ k : β, ((a :: l).filter fun r => key r = k).length
        = (if key a = k then 1 else 0) + (l.filter fun r => key r = k).length := by
      intro k
      by_cases hk : key a = k <;> simp [List.filter_cons, hk, Nat.add_comm]
    simp only [hsplit]
    rw [Finset.sum_add_distrib, ih hl, Finset.sum_ite_eq S (key a) fun _ => 1,
      if_pos ha, List.length_cons, Nat.add_comm]

/-- The `Total_Checkins` column of `summaryBy`, as a function of the group key. -/
theorem summaryBy_map_total (thr : Nat) (key : Row → String) (rows : List Row) :
    (summaryBy thr key rows).map GroupRow.total
      = ((rows.map key).dedup).map fun k => (rows.filter fun r => key r = k).length := by
  simp [summaryBy, List.map_map, Function.comp]

/-- The `False_Checkins` column of `summaryBy`, as a function of the group key. -/
theorem summaryBy_map_falseC (thr : Nat) (key : Row → String) (rows : List Row) :
    (summaryBy thr key rows).map GroupRow.falseC
      = ((rows.map key).dedup).map fun k =>
          ((rows.filter fun r => key r = k).filter fun r => !onTime thr r).length := by
  simp [summaryBy, List.map_map, Function.comp]

/-- The deduplicated key list of a list of rows has the same `toFinset` as
the raw key list. -/
theorem toFinset_dedup_keys (l : List String) : l.dedup.toFinset = l.toFinset :=
  Finset.ext fun a => by simp [List.mem_toFinset, List.mem_dedup]

/-- Summing any per-key partition size of a sub-selection of `rows` over the
deduplicated keys of `rows` recovers the sub-selection's length. -/
theorem sum_over_dedup_keys (key : Row → String) (rows sub : List Row)
    (hsub : ∀ r ∈ sub, key r ∈ rows.map key) :
    (((rows.map key).dedup).map fun k => (sub.filter fun r => key r = k).length).sum
      = sub.length := by
  rw [← List.sum_toFinset _ (List.nodup_dedup (rows.map key)), toFinset_dedup_keys]
  exact sum_length_filter_key key _ sub fun r hr => List.mem_toFinset.mpr (hsub r hr)

/-- Every `summaryBy` group is a nonempty partition: its total is positive. -/
theorem summaryBy_total_pos (thr : Nat) (key : Row → String) (rows : List Row)
    (g : GroupRow) (hg : g ∈ summaryBy thr key rows) : 0 < g.total := by
  simp only [summaryBy, List.mem_map] at hg
  obtain ⟨k, hk, rfl⟩ := hg
  obtain ⟨r, hr, hrk⟩ := List.mem_map.mp (List.mem_dedup.mp hk)
  have : r ∈ rows.filter fun r => key r = k :=
    List.mem_filter.mpr ⟨hr, by simp [hrk]⟩
  simpa using List.length_pos.mpr (List.ne_nil_of_mem this)

/-!  C1 -/

/-- C1: every group `g` of the grouped aggregation (by Area or Region) has
`False_% = round1(False_Checkins / Total_Checkins * 100)`, the late ratio
times 100 rounded to one decimal place. -/
theorem c1_group_false_pct (thr : Nat) (d : Dim) (rows : List Row)
    (g : GroupRow) (hg : g ∈ groupSummary thr d rows) (hpos : 0 < g.total) :
    g.falsePct = round1 ((g.falseC : ℚ) / (g.total : ℚ) * 100) := by
  simp only [groupSummary, summaryBy, List.mem_map] at hg
  obtain ⟨k, hk, rfl⟩ := hg
  rfl

/-- Witness for C1 at a one-row dataset: the single group "N" with one late
check-in reports `pct 1 1`. -/
theorem c1_group_false_pct_witness :
    pct 1 1 = round1 (((1 : Nat) : ℚ) / ((1 : Nat) : ℚ) * 100) :=
  c1_group_false_pct 0 Dim.area [sampleRow]
    { key := "N", total := 1, falseC := 1, falsePct := pct 1 1 }
    (by simp [groupSummary, summaryBy, sampleRow, keyOf, onTime, List.dedup,
      List.filter])
    (by simp)

/-!  C2 -/

/-- C2: for every record set and either dimension, the grouped aggregation
conserves totals — the group totals sum to the number of records, and the
group false counts sum to the number of late records. -/
theorem c2_conservation (thr : Nat) (d : Dim) (rows : List Row) :
    ((groupSummary thr d rows).map GroupRow.total).sum = rows.length ∧
    ((groupSummary thr d rows).map GroupRow.falseC).sum
      = (rows.filter fun r => !onTime thr r).length := by
  constructor
  · rw [groupSummary, summaryBy_map_total]
    exact sum_over_dedup_keys (keyOf d) rows rows
      fun r hr => List.mem_map_of_mem (keyOf d) hr
  · rw [groupSummary, summaryBy_map_falseC]
    have hcomm : ∀ k, ((rows.filter fun r => keyOf d r = k).filter
          fun r => !onTime thr r)
        = ((rows.filter fun r => !onTime thr r).filter fun r => keyOf d r = k) :=
      fun k => List.filter_comm _ _ _
    simp only [hcomm]
    exact sum_over_dedup_keys (keyOf d) rows _
      fun r hr => List.mem_map_of_mem (keyOf d) (List.mem_of_mem_filter hr)

/-!  C3 -/

/-- C3: the lateness classifier marks a record on time exactly when its
check-in time of day is at most the threshold; the comparison reads nothing
but the time-of-day field. -/
theorem c3_classifier (thr : Nat) (r : Row) :
    onTime thr r = true ↔ r.checkInTime ≤ thr := by
  simp [onTime]

/-!  C4 -/

/-- C4: every row of the flagged-group table reports the distinct flagged
RA users of the group, the distinct RA users of the group taken from the
*unfiltered* month population `mdfOf m rows` (line 171, computed from `mdf`,
not from `filtered_ra`), and a percentage equal to the former over the
latter times 100 rounded to one decimal place. -/
theorem c4_flagged_pct (thr : Nat) (d : Dim) (m : String) (cutoff : ℚ)
    (rows : List Row) (e : FlagRow) (he : e ∈ areaLateCount thr d m cutoff rows) :
    e.totalRa = totalRaPerArea d (mdfOf m rows) e.key ∧
    e.raCount = ((((filterUsers (raUsers thr d m rows) cutoff).filter
        fun u => u.key = e.key).map URec.user).dedup).length ∧
    e.percent = pct e.raCount e.totalRa := by
  simp only [areaLateCount, List.mem_map] at he
  obtain ⟨k, hk, rfl⟩ := he
  exact ⟨rfl, rfl, rfl⟩

/-- Witness for C4 at a one-row dataset: the single flagged group "N" of
month "m" reports count 1 of total 1 and `pct 1 1`. -/
theorem c4_flagged_pct_witness :
    (1 : Nat) = totalRaPerArea Dim.area (mdfOf "m" [sampleRow]) "N" ∧
    (1 : Nat) = ((((filterUsers (raUsers 0 Dim.area "m" [sampleRow]) 60).filter
        fun u => u.key = "N").map URec.user).dedup).length ∧
    pct 1 1 = pct 1 1 :=
  c4_flagged_pct 0 Dim.area "m" 60 [sampleRow]
    { key := "N", raCount := 1, totalRa := 1, percent := pct 1 1 }
    (by norm_num [areaLateCount, filterUsers, raUsers, mdfOf, totalRaPerArea,
      sampleRow, keyOf, onTime, pct, round1, rhe, List.dedup, List.filter])

/-!  C5 -/

/-- C5: the threshold filter has an inclusive boundary — a user record
whose `False_%` equals the integer cutoff is kept by `filterUsers`. -/
theorem c5_boundary_inclusive (recs : List URec) (c : Nat) (_hc : c ≤ 100)
    (r : URec) (hr : r ∈ recs) (heq : r.falsePct = (c : ℚ)) :
    r ∈ filterUsers recs (c : ℚ) := by
  simp [filterUsers, List.mem_filter, hr, heq]

/-- Witness for C5: a user with 6 late of 10 check-ins has `False_%` exactly
60 and is kept at cutoff 60. -/
theorem c5_boundary_inclusive_witness :
    sampleURec ∈ filterUsers [sampleURec] ((60 : Nat) : ℚ) :=
  c5_boundary_inclusive _ 60 (by norm_num) _ (List.mem_singleton.mpr rfl)
    (by norm_num [sampleURec, pct, round1, rhe])

/-!  C6 -/

/-- C6: the threshold filter is antitone in the cutoff — at a higher cutoff
its output is a sublist of (hence a subset of, and no longer than) its
output at a lower cutoff. -/
theorem c6_cutoff_antitone (recs : List URec) (c₁ c₂ : ℚ) (h : c₁ ≤ c₂) :
    filterUsers recs c₂ ⊆ filterUsers recs c₁ ∧
    (filterUsers recs c₂).length ≤ (filterUsers recs c₁).length := by
  constructor
  · intro r hr
    have := List.mem_filter.mp hr
    exact List.mem_filter.mpr ⟨this.1, by
      have h2 : c₂ ≤ r.falsePct := by simpa using this.2
      simp [le_trans h h2]⟩
  · induction recs with
    | nil => simp [filterUsers]
    | cons a l ih =>
      simp only [filterUsers, List.filter_cons] at ih ⊢
      by_cases h2 : c₂ ≤ a.falsePct
      · have h1 : c₁ ≤ a.falsePct := le_trans h h2
        simpa [h1, h2] using ih
      · by_cases h1 : c₁ ≤ a.falsePct
        · rw [if_neg (by simpa using h2), if_pos (by simpa using h1)]
          exact Nat.le_succ_of_le ih
        · simpa [h1, h2] using ih

/-- Witness for C6 at cutoffs 60 ≤ 70 on a one-record table. -/
theorem c6_cutoff_antitone_witness :
    filterUsers [sampleURec] 70 ⊆ filterUsers [sampleURec] 60 ∧
    (filterUsers [sampleURec] 70).length ≤ (filterUsers [sampleURec] 60).length :=
  c6_cutoff_antitone _ 60 70 (by norm_num)

/-!  C7 -/

/-- Every row of the per-user RA table aggregates a nonempty partition. -/
theorem raUsers_total_pos (thr : Nat) (d : Dim) (m : String) (rows : List Row)
    (u : URec) (hu : u ∈ raUsers thr d m rows) : 0 < u.total := by
  simp only [raUsers, List.mem_map] at hu
  obtain ⟨p, hp, rfl⟩ := hu
  obtain ⟨r, hr, hrp⟩ := List.mem_map.mp (List.mem_dedup.mp hp)
  have : r ∈ (mdfOf m rows).filter fun x => keyOf d x = p.1 ∧ x.user = p.2 :=
    List.mem_filter.mpr ⟨hr, by simp [← hrp]⟩
  simpa using List.length_pos.mpr (List.ne_nil_of_mem this)

/-- Every flagged group's denominator — its distinct RA users in the
unfiltered month population — is positive. -/
theorem areaLateCount_totalRa_pos (thr : Nat) (d : Dim) (m : String)
    (c : ℚ) (rows : List Row) (e : FlagRow)
    (he : e ∈ areaLateCount thr d m c rows) : 0 < e.totalRa := by
  simp only [areaLateCount, List.mem_map] at he
  obtain ⟨k, hk, rfl⟩ := he
  obtain ⟨u, hu, huk⟩ := List.mem_map.mp (List.mem_dedup.mp hk)
  have hu' : u ∈ raUsers thr d m rows := List.mem_of_mem_filter hu
  simp only [raUsers, List.mem_map] at hu'
  obtain ⟨p, hp, hup⟩ := hu'
  obtain ⟨r, hr, hrp⟩ := List.mem_map.mp (List.mem_dedup.mp hp)
  subst hup
  dsimp only at huk
  have hkr : keyOf d r = k := by rw [← huk, ← hrp]
  have hmem : r.user ∈ ((mdfOf m rows).filter fun x => keyOf d x = k).map Row.user :=
    List.mem_map_of_mem Row.user (List.mem_filter.mpr ⟨hr, by simp [hkr]⟩)
  have hpos : 0 < (((mdfOf m rows).filter fun x => keyOf d x = k).map
      Row.user).dedup.length :=
    List.length_pos.mpr (List.ne_nil_of_mem (List.mem_dedup.mpr hmem))
  simpa [totalRaPerArea] using hpos

/-- C7: no percentage in the pipeline divides by zero — the overall summary
percentages of an empty dataset are the guarded default 0, and every other
percentage row (monthly trend, per-group, per-user, flagged-group) has a
provably positive denominator. -/
theorem c7_division_guards :
    (∀ thr, (summarize thr []).truePct = 0 ∧ (summarize thr []).falsePct = 0) ∧
    (∀ thr rows, ∀ g ∈ monthSummary thr rows, 0 < g.total) ∧
    (∀ thr d rows, ∀ g ∈ groupSummary thr d rows, 0 < g.total) ∧
    (∀ thr d m rows, ∀ u ∈ raUsers thr d m rows, 0 < u.total) ∧
    (∀ thr d m c rows, ∀ e ∈ areaLateCount thr d m c rows, 0 < e.totalRa) :=
  ⟨fun _ => ⟨rfl, rfl⟩,
   fun thr rows g hg => summaryBy_total_pos thr Row.month rows g hg,
   fun thr d rows g hg => summaryBy_total_pos thr (keyOf d) rows g hg,
   fun thr d m rows u hu => raUsers_total_pos thr d m rows u hu,
   fun thr d m c rows e he => areaLateCount_totalRa_pos thr d m c rows e he⟩

/-- Witness for C7 on concrete data: the empty dataset's guarded percentage,
and positive denominators for a concrete month group, area group, user
record and flagged group of the one-row dataset. -/
theorem c7_division_guards_witness :
    (summarize 0 []).truePct = 0 ∧
    (0 : Nat) < 1 ∧ (0 : Nat) < 1 ∧ (0 : Nat) < 1 ∧ (0 : Nat) < 1 :=
  ⟨(c7_division_guards.1 0).1,
   c7_division_guards.2.1 0 [sampleRow]
     { key := "m", total := 1, falseC := 1, falsePct := pct 1 1 }
     (by simp [monthSummary, summaryBy, sampleRow, onTime, List.dedup,
       List.filter]),
   c7_division_guards.2.2.1 0 Dim.area [sampleRow]
     { key := "N", total := 1, falseC := 1, falsePct := pct 1 1 }
     (by simp [groupSummary, summaryBy, sampleRow, keyOf, onTime, List.dedup,
       List.filter]),
   c7_division_guards.2.2.2.1 0 Dim.area "m" [sampleRow]
     { key := "N", user := "u", total := 1, falseC := 1, falsePct := pct 1 1 }
     (by simp [raUsers, mdfOf, sampleRow, keyOf, onTime, List.dedup,
       List.filter]),
   c7_division_guards.2.2.2.2 0 Dim.area "m" 60 [sampleRow]
     { key := "N", raCount := 1, totalRa := 1, percent := pct 1 1 }
     (by norm_num [areaLateCount, filterUsers, raUsers, mdfOf, totalRaPerArea,
       sampleRow, keyOf, onTime, pct, round1, rhe, List.dedup, List.filter])⟩

/-!  C8 -/

/-- Refutation of C8 as stated, at a concrete dataset header: with
`Assigned Area` missing (and the Area dimension selected), the script does
not halt before any aggregation — the monthly-trend aggregation completes
(`aggsCompleted = 1`) before `groupby("Area")` raises `KeyError 'Area'`,
which also names the canonical renamed column rather than the uploaded
header `Assigned Area`. -/
theorem c8_counterexample :
    (runPipeline Dim.area headerNoArea).keyError = some "Area" ∧
    (runPipeline Dim.area headerNoArea).aggsCompleted = 1 :=
  ⟨rfl, rfl⟩

/-- `renameCol` maps a column to `CheckInTime` only from `Check-In Time`
or from a column already named `CheckInTime`. -/
theorem renameCol_eq_time {c : String} (h : renameCol c = "CheckInTime") :
    c = "Check-In Time" ∨ c = "CheckInTime" := by
  simp only [renameCol] at h
  split_ifs at h with h1 h2 h3 h4 h5 h6
  · exact absurd h (by decide)
  · exact absurd h (by decide)
  · exact absurd h (by decide)
  · exact absurd h (by decide)
  · exact Or.inl h5
  · exact absurd h (by decide)
  · exact Or.inr h

/-- `renameCol` maps a column to `CheckInDate` only from `Check-In Date`
or from a column already named `CheckInDate`. -/
theorem renameCol_eq_date {c : String} (h : renameCol c = "CheckInDate") :
    c = "Check-In Date" ∨ c = "CheckInDate" := by
  simp only [renameCol] at h
  split_ifs at h with h1 h2 h3 h4 h5 h6
  · exact absurd h (by decide)
  · exact absurd h (by decide)
  · exact absurd h (by decide)
  · exact absurd h (by decide)
  · exact absurd h (by decide)
  · exact Or.inl h6
  · exact Or.inr h

/-- C8 amended: a dataset missing the `Check-In Time` column does halt
during normalization, before any aggregation, with a `KeyError` naming a
canonical parsed column (`CheckInDate` or `CheckInTime`); for other
required columns (for example `Assigned Area`) the failure comes only at
first access, after aggregations may already have completed. -/
theorem c8_amended (cols : List String) (d : Dim)
    (h1 : ¬ cols.contains "Check-In Time") (h2 : ¬ cols.contains "CheckInTime") :
    (runPipeline d cols).aggsCompleted = 0 ∧
    ((runPipeline d cols).keyError = some "CheckInDate" ∨
     (runPipeline d cols).keyError = some "CheckInTime") := by
  have hct : ¬ ((cols.map renameCol).contains "CheckInTime" = true) := by
    intro hc
    obtain ⟨c, hcm, hce⟩ := List.mem_map.mp (by simpa using hc)
    rcases renameCol_eq_time hce with rfl | rfl
    · exact h1 (by simpa using hcm)
    · exact h2 (by simpa using hcm)
  by_cases hd : (cols.map renameCol).contains "CheckInDate" = true
  · have hn : normalizeSchema cols = .error "CheckInTime" := by
      rw [normalizeSchema, if_neg (fun hcon => hcon hd), if_pos hct]
    rw [runPipeline, hn]
    exact ⟨rfl, Or.inr rfl⟩
  · have hn : normalizeSchema cols = .error "CheckInDate" := by
      rw [normalizeSchema, if_pos hd]
    rw [runPipeline, hn]
    exact ⟨rfl, Or.inl rfl⟩

/-- Witness for the amended C8 at the concrete header missing
`Check-In Time`. -/
theorem c8_amended_witness :
    (runPipeline Dim.area headerNoTime).aggsCompleted = 0 ∧
    ((runPipeline Dim.area headerNoTime).keyError = some "CheckInDate" ∨
     (runPipeline Dim.area headerNoTime).keyError = some "CheckInTime") :=
  c8_amended headerNoTime Dim.area (by decide) (by decide)

/-!  C9 -/

/-- Refutation of C9 at a concrete dataset header: with every required
column present but `Check-In Date` absent, normalization does not succeed —
line 40 reads the `CheckInDate` column unconditionally and raises
`KeyError 'CheckInDate'`. -/
theorem c9_counterexample :
    normalizeSchema headerNoDate = Except.error "CheckInDate" :=
  rfl

/-- C9 amended: the `Check-In Date` column is effectively required — any
dataset lacking it (under either name) fails normalization with
`KeyError 'CheckInDate'` instead of producing records. -/
theorem c9_amended (cols : List String)
    (h1 : ¬ cols.contains "Check-In Date") (h2 : ¬ cols.contains "CheckInDate") :
    normalizeSchema cols = Except.error "CheckInDate" := by
  have hcd : ¬ ((cols.map renameCol).contains "CheckInDate" = true) := by
    intro hc
    obtain ⟨c, hcm, hce⟩ := List.mem_map.mp (by simpa using hc)
    rcases renameCol_eq_date hce with rfl | rfl
    · exact h1 (by simpa using hcm)
    · exact h2 (by simpa using hcm)
  rw [normalizeSchema, if_pos hcd]

/-- Witness for the amended C9 at the concrete header missing
`Check-In Date`. -/
theorem c9_amended_witness :
    normalizeSchema headerNoDate = Except.error "CheckInDate" :=
  c9_amended headerNoDate (by decide) (by decide)

/-!  C10 -/

/-- C10: the threshold filter compares the rounded `False_%` to the cutoff,
not the exact ratio — a user with 2999 late of 5000 check-ins has an exact
late ratio of 59.98% (strictly below cutoff 60) yet a `False_%` of 60.0,
and is therefore included by the filter at cutoff 60. -/
theorem c10_rounding_includes_below_cutoff :
    (borderURec.falseC : ℚ) / (borderURec.total : ℚ) * 100 < 60 ∧
    borderURec.falsePct = 60 ∧
    borderURec ∈ filterUsers [borderURec] 60 := by
  refine ⟨by norm_num [borderURec], by norm_num [borderURec, pct, round1, rhe], ?_⟩
  simp only [filterUsers, List.filter]
  norm_num [borderURec, pct, round1, rhe]

end Attendance
